import Mathlib

/-!
Verification of the backvault encrypted-backup tool.

This file gives a shallow embedding of the core of the repository:

* `src/bw_client.py` — `BitwardenClient.encrypt_data`, `_redact_sensitive_args`,
  `_validate_backup_path`, `retry_with_backoff`, `logout`;
* `src/decrypt.py` — `decrypt_data`.

Bytes are modelled as `List Nat`; Python byte strings are finite sequences, and
slicing (`xs[a:b]`, `xs[a:]`) is total, which `List.take`/`List.drop` mirror
exactly.  The two external cryptographic libraries (`cryptography`'s AESGCM and
`argon2.low_level.hash_secret_raw` / PBKDF2) are not part of the repository;
they enter the embedding as explicit functional parameters (`AEAD`, `KdfSuite`)
and their documented contracts (round-trip, ciphertext length, rejection of
forged inputs) appear as hypotheses of the theorems that need them.  Concrete
executable stand-ins (`concreteSuite`, `concreteAead`) are provided so every
hypothesis can be discharged on concrete inputs; they are stand-ins for
witnesses, not models of AES-GCM.
-/

namespace Backvault

/-- Byte strings.  A Python `bytes` value is a finite sequence of values
`0..255`; none of the verified claims depends on the upper bound, so bytes are
plain naturals. -/
abbrev Bytes := List Nat

/-- Constant `SALT_SIZE = 16` from `bw_client.py` / `decrypt.py`. -/
def SALT_SIZE : Nat := 16

/-- Constant `KEY_SIZE = 32` from `bw_client.py` / `decrypt.py` (AES-256 key). -/
def KEY_SIZE : Nat := 32

/-- Constant `PBKDF2_ITERATIONS = 600000` (version-1 KDF parameter). -/
def PBKDF2_ITERATIONS : Nat := 600000

/-- Constant `ARGON2_TIME_COST = 3` (version-2 KDF parameter). -/
def ARGON2_TIME_COST : Nat := 3

/-- Constant `ARGON2_MEMORY_COST = 65536` (version-2 KDF parameter, KiB). -/
def ARGON2_MEMORY_COST : Nat := 65536

/-- Constant `ARGON2_PARALLELISM = 4` (version-2 KDF parameter). -/
def ARGON2_PARALLELISM : Nat := 4

/-- Constant `ENCRYPTION_VERSION = 2` from `bw_client.py` line 26: the version
written into every new envelope. -/
def ENCRYPTION_VERSION : Nat := 2

/-- Python `int.from_bytes(bs, byteorder="big")`: big-endian interpretation of
a byte string; the empty string decodes to `0`. -/
def fromBytesBE (bs : Bytes) : Nat :=
  bs.foldl (fun acc b => 256 * acc + b) 0

/-- Python `n.to_bytes(4, byteorder="big")` for `n < 2^32` (the code only ever
applies it to the constants `1`, `2`, `999`). -/
def toBytesBE4 (n : Nat) : Bytes :=
  [n / 2 ^ 24 % 256, n / 2 ^ 16 % 256, n / 2 ^ 8 % 256, n % 256]

/-- UTF-8 encoding of a single code point (RFC 3629). -/
def utf8EncodeChar (n : Nat) : List Nat :=
  if n < 0x80 then [n]
  else if n < 0x800 then [0xC0 + n / 64, 0x80 + n % 64]
  else if n < 0x10000 then [0xE0 + n / 4096, 0x80 + n / 64 % 64, 0x80 + n % 64]
  else [0xF0 + n / 262144, 0x80 + n / 4096 % 64, 0x80 + n / 64 % 64,
    0x80 + n % 64]

/-- UTF-8 encoding, Python `password.encode("utf-8")`. -/
def utf8Encode (s : String) : Bytes :=
  s.data.foldr (fun c acc => utf8EncodeChar c.toNat ++ acc) []

/-- The two key-derivation functions the code calls, one per format version.
`pbkdf2_sha256` stands for `PBKDF2HMAC(SHA256, length=KEY_SIZE, salt,
iterations=PBKDF2_ITERATIONS).derive` (version 1) and `argon2id` for
`argon2.low_level.hash_secret_raw(secret, salt, time_cost=ARGON2_TIME_COST,
memory_cost=ARGON2_MEMORY_COST, parallelism=ARGON2_PARALLELISM,
hash_len=KEY_SIZE, type=Type.ID)` (version 2).  Both are deterministic
functions of `(secret, salt)`; their fixed parameters are absorbed into the
abstract function. -/
structure KdfSuite where
  pbkdf2_sha256 : Bytes → Bytes → Bytes
  argon2id : Bytes → Bytes → Bytes

/-- The AEAD interface of `cryptography`'s `AESGCM` object as used by the code:
`encrypt key nonce plaintext` returns ciphertext-with-appended-tag
(`AESGCM(key).encrypt(nonce, data, None)` — associated data is always `None`
at every call site), and `decrypt key nonce ct` returns `some plaintext` on
success and `none` when the library raises (tag-verification failure
`InvalidTag`, or a parameter error on degenerate inputs). -/
structure AEAD where
  encrypt : Bytes → Bytes → Bytes → Bytes
  decrypt : Bytes → Bytes → Bytes → Option Bytes

/-- Embedding of `BitwardenClient.encrypt_data` (`bw_client.py` lines 313-354).
The two calls to `os.urandom` (16-byte salt, 12-byte nonce) are made explicit
as the `salt` and `nonce` arguments; the theorems that need them carry the
length facts `salt.length = 16` and `nonce.length = 12` guaranteed by
`os.urandom(SALT_SIZE)` and `os.urandom(12)` as hypotheses. -/
def encrypt_data (S : KdfSuite) (A : AEAD) (salt nonce : Bytes)
    (data : Bytes) (password : String) : Bytes :=
  let version := toBytesBE4 ENCRYPTION_VERSION
  let key := S.argon2id (utf8Encode password) salt
  let ciphertext := A.encrypt key nonce data
  version ++ salt ++ nonce ++ ciphertext

/-- The ways `decrypt_data` fails.  `unsupportedVersion v` is the explicit
`raise ValueError(f"Unsupported encryption version: ...")` at `decrypt.py`
line 55; `invalidTag` is an exception propagating out of the AEAD layer
(`InvalidTag` from `aesgcm.decrypt`, covering wrong password and tampering
alike).  The code contains no parsing/length check and hence no
malformed-envelope error. -/
inductive DecryptError where
  | unsupportedVersion (v : Nat)
  | invalidTag
deriving DecidableEq, Repr

/-- Embedding of `decrypt_data` (`decrypt.py` lines 22-59).  The slices
`encrypted_data[:4]`, `[offset:offset+SALT_SIZE]`,
`[offset+SALT_SIZE:offset+SALT_SIZE+12]`, `[offset+SALT_SIZE+12:]` are
Python's total slicing, i.e. `take`/`drop`; no length is ever checked, so no
out-of-bounds access can occur. -/
def decrypt_data (S : KdfSuite) (A : AEAD) (encrypted_data : Bytes)
    (password : String) : Except DecryptError Bytes :=
  let version_num := fromBytesBE (encrypted_data.take 4)
  let offset := 4
  let salt := (encrypted_data.drop offset).take SALT_SIZE
  let nonce := (encrypted_data.drop (offset + SALT_SIZE)).take 12
  let ciphertext_with_tag := encrypted_data.drop (offset + SALT_SIZE + 12)
  if version_num = 1 then
    match A.decrypt (S.pbkdf2_sha256 (utf8Encode password) salt) nonce
        ciphertext_with_tag with
    | some pt => .ok pt
    | none => .error .invalidTag
  else if version_num = 2 then
    match A.decrypt (S.argon2id (utf8Encode password) salt) nonce
        ciphertext_with_tag with
    | some pt => .ok pt
    | none => .error .invalidTag
  else
    .error (.unsupportedVersion version_num)

/-- Flip bit `j` of byte `i` of a byte string (`corrupted[i] ^= (1 << j)`). -/
def flipBit (bs : Bytes) (i j : Nat) : Bytes :=
  bs.set i (Nat.xor (bs.getD i 0) (2 ^ j))

/-- Loop body of `BitwardenClient._redact_sensitive_args` (`bw_client.py`
lines 187-209).  The Boolean argument is the `skip_next` flag; the Python
index test `i + 1 < len(cmd)` for the `unlock` case is exactly "the current
element is not the last", i.e. `rest ≠ []`.  The branch order matches the
source: `skip_next` first, then the flag set `{"--password", "--raw"}`, then
the command set `{"unlock"}`. -/
def redactAux : Bool → List String → List String
  | _, [] => []
  | true, _ :: rest => "***REDACTED***" :: redactAux false rest
  | false, arg :: rest =>
    if arg = "--password" ∨ arg = "--raw" then arg :: redactAux true rest
    else if arg = "unlock" ∧ rest ≠ [] then arg :: redactAux true rest
    else arg :: redactAux false rest

/-- Embedding of `BitwardenClient._redact_sensitive_args`: the loop starts
with `skip_next = False` and an empty accumulator. -/
def _redact_sensitive_args (cmd : List String) : List String :=
  redactAux false cmd

/-- Error kinds of `_validate_backup_path`.  The source raises
`BitwardenError` with two distinct messages; `pathTraversal` is the
"must be within ..." failure of the `relative_to` check, `invalidFilename`
covers the two filename failures ("only alphanumeric, dots, dashes, and
underscores allowed" and "must end with .enc"). -/
inductive PathError where
  | pathTraversal
  | invalidFilename
deriving DecidableEq, Repr

/-- A path as handed to `pathlib.Path`: an absolute/relative marker plus the
component list (components may be `"."` or `".."`). -/
structure PyPath where
  absolute : Bool
  comps : List String
deriving DecidableEq, Repr

/-- Lexical part of `pathlib.Path.resolve()`: process components left to
right; `"."` is dropped, `".."` removes the last component (and is a no-op at
the root, as in POSIX resolution).  Symbolic links require a file system and
are outside the embedding. -/
def resolveComps (comps : List String) : List String :=
  comps.foldl
    (fun acc c =>
      if c = "." then acc
      else if c = ".." then acc.dropLast
      else acc ++ [c]) []

/-- Resolution of a `PyPath` against the (already canonical) current working
directory: a relative path is interpreted below `cwd`, then normalised. -/
def resolvePath (cwd : List String) (p : PyPath) : List String :=
  resolveComps ((if p.absolute then [] else cwd) ++ p.comps)

/-- Final component, Python `Path.name`; the root path has name `""`. -/
def pathName (comps : List String) : String :=
  comps.getLastD ""

/-- Character class of the filename regex `^[a-zA-Z0-9._-]+$`
(`bw_client.py` line 379). -/
def safeChar (c : Char) : Bool :=
  c.isAlpha || c.isDigit || c == '.' || c == '_' || c == '-'

/-- The regex test `re.match(r"^[a-zA-Z0-9._-]+$", filename)`: at least one
character, and every character in the class. -/
def filenameOk (fn : String) : Bool :=
  !fn.data.isEmpty && fn.data.all safeChar

/-- Python `filename.endswith(".enc")` (`bw_client.py` line 388). -/
def endsWithEnc (fn : String) : Bool :=
  ".enc".data.isSuffixOf fn.data

/-- Embedding of `BitwardenClient._validate_backup_path` (`bw_client.py`
lines 356-392).  `backup_path.relative_to(allowed_path)` on two resolved
absolute paths succeeds exactly when the component list of `allowed_path` is
a prefix of that of `backup_path`; the check order (traversal, then charset,
then extension) matches the source.  The function is pure: it returns the
resolved path and touches no file. -/
def _validate_backup_path (cwd : List String) (backup_file : PyPath)
    (allowed_base : PyPath) : Except PathError (List String) :=
  let backup_path := resolvePath cwd backup_file
  let allowed_path := resolvePath cwd allowed_base
  if allowed_path.isPrefixOf backup_path then
    let filename := pathName backup_path
    if filenameOk filename then
      if endsWithEnc filename then .ok backup_path
      else .error .invalidFilename
    else .error .invalidFilename
  else .error .pathTraversal

/-- Outcome of one invocation of a function wrapped by `retry_with_backoff`:
normal return, a raised `BitwardenError` (the only exception the wrapper
catches), or any other exception.  Error payloads are tags distinguishing
exception objects. -/
inductive RunResult (α : Type) where
  | ok (a : α)
  | bwError (e : Nat)
  | otherError (e : Nat)
deriving DecidableEq, Repr

/-- Observable behaviour of one run of the `retry_with_backoff` wrapper: the
final outcome, the sequence of sleeps performed (`time.sleep(delay)`), and how
many times the wrapped function was invoked. -/
structure RetryTrace (α : Type) where
  result : RunResult α
  delays : List ℚ
  calls : Nat
deriving DecidableEq, Repr

/-- Loop of the `wrapper` closure in `retry_with_backoff` (`bw_client.py`
lines 56-77).  `remaining` is the number of iterations `for attempt in
range(max_attempts)` still has to run (so `remaining + attempt = max_attempts`
at the top-level call), `ds`/`calls` accumulate sleeps and invocations, and
`last` is `last_exception`.  The `remaining = 0` case is the fall-through
`raise last_exception` after the loop (with `last = none` it models the
`raise None` that only a `max_attempts = 0` call could reach). -/
def retryGo {α : Type} (op : Nat → RunResult α) (base_delay max_delay : ℚ)
    (max_attempts : Nat) :
    Nat → Nat → List ℚ → Nat → Option Nat → RetryTrace α
  | 0, _, ds, calls, some e => ⟨.bwError e, ds, calls⟩
  | 0, _, ds, calls, none => ⟨.otherError 0, ds, calls⟩
  | r + 1, attempt, ds, calls, _ =>
    match op attempt with
    | .ok a => ⟨.ok a, ds, calls + 1⟩
    | .otherError x => ⟨.otherError x, ds, calls + 1⟩
    | .bwError x =>
      if attempt = max_attempts - 1 then ⟨.bwError x, ds, calls + 1⟩
      else
        retryGo op base_delay max_delay max_attempts r (attempt + 1)
          (ds ++ [min (base_delay * 2 ^ attempt) max_delay]) (calls + 1)
          (some x)

/-- Embedding of `retry_with_backoff(max_attempts, base_delay, max_delay)`
applied to an operation.  `op i` is the outcome of the `i`-th invocation of
the wrapped function (0-indexed); delays are exact rationals standing for the
Python floats (the code only ever computes `min(base * 2**i, max)`, exact in
binary floating point for the values involved).  Source defaults:
`max_attempts = 3`, `base_delay = 2.0`, `max_delay = 30.0`. -/
def retry_with_backoff {α : Type} (max_attempts : Nat)
    (base_delay max_delay : ℚ) (op : Nat → RunResult α) : RetryTrace α :=
  retryGo op base_delay max_delay max_attempts max_attempts 0 [] 0 none

/-- The fields of `BitwardenClient` relevant to session handling
(`bw_client.py` lines 104-110). -/
structure BitwardenClientState where
  bw_cmd : String
  session : Option String
  client_id : Option String
  client_secret : Option String
  use_api_key : Bool
deriving DecidableEq, Repr

/-- Outcome of the `self._run(["logout"], capture_json=False)` subprocess
call: captured stdout on success, or the raised `BitwardenError` tag. -/
inductive RunOutcome where
  | success (stdout : String)
  | failure (e : Nat)
deriving DecidableEq, Repr

/-- Embedding of `BitwardenClient.logout` (`bw_client.py` lines 214-218):
`self._run(["logout"], ...)` runs first; only if it returns does
`self.session = None` execute.  If `_run` raises, the exception propagates
and the object is returned unchanged. -/
def logout (st : BitwardenClientState) (run_logout : RunOutcome) :
    Option Nat × BitwardenClientState :=
  match run_logout with
  | .failure e => (some e, st)
  | .success _ => (none, { st with session := none })

/-- Deterministic key derivation stand-in used only to witness hypotheses on
the abstract `KdfSuite` at concrete inputs (the real KDFs live in external
libraries). -/
def concreteSuite : KdfSuite where
  pbkdf2_sha256 := fun secret salt =>
    List.replicate KEY_SIZE ((secret.sum + 3 * salt.sum + 1) % 256)
  argon2id := fun secret salt =>
    List.replicate KEY_SIZE ((secret.sum + salt.sum) % 256)

/-- Tag of the stand-in AEAD: 16 bytes depending on key, nonce and body. -/
def concreteTag (key nonce body : Bytes) : Bytes :=
  List.replicate 16 ((key.sum + 2 * nonce.sum + 3 * body.sum + body.length) % 256)

/-- Executable AEAD stand-in used only to witness hypotheses on the abstract
`AEAD` at concrete inputs: the "ciphertext" is the plaintext followed by a
16-byte tag, and decryption verifies the tag.  It satisfies the round-trip
and length contracts of an AEAD but is of course not AES-GCM. -/
def concreteAead : AEAD where
  encrypt := fun key nonce p => p ++ concreteTag key nonce p
  decrypt := fun key nonce c =>
    if c.length < 16 then none
    else
      let body := c.take (c.length - 16)
      let tag := c.drop (c.length - 16)
      if tag = concreteTag key nonce body then some body else none

/-! Helper lemmas about the envelope layout and the executable stand-ins. -/

theorem toBytesBE4_length (n : Nat) : (toBytesBE4 n).length = 4 := rfl

theorem fromBytesBE_version : fromBytesBE (toBytesBE4 ENCRYPTION_VERSION) = 2 := by
  decide

theorem envelope_take4 (salt nonce ct : Bytes) :
    (toBytesBE4 ENCRYPTION_VERSION ++ salt ++ nonce ++ ct).take 4 =
      toBytesBE4 ENCRYPTION_VERSION := by
  rw [List.append_assoc, List.append_assoc,
    List.take_left' (toBytesBE4_length ENCRYPTION_VERSION)]

theorem envelope_salt (salt nonce ct : Bytes) (hs : salt.length = 16) :
    ((toBytesBE4 ENCRYPTION_VERSION ++ salt ++ nonce ++ ct).drop 4).take
      SALT_SIZE = salt := by
  rw [List.append_assoc, List.append_assoc,
    List.drop_left' (toBytesBE4_length ENCRYPTION_VERSION),
    List.take_left' (show salt.length = SALT_SIZE from hs)]

theorem envelope_nonce (salt nonce ct : Bytes) (hs : salt.length = 16)
    (hn : nonce.length = 12) :
    ((toBytesBE4 ENCRYPTION_VERSION ++ salt ++ nonce ++ ct).drop
      (4 + SALT_SIZE)).take 12 = nonce := by
  rw [List.append_assoc,
    List.drop_left' (show (toBytesBE4 ENCRYPTION_VERSION ++ salt).length =
      4 + SALT_SIZE by simp [hs, SALT_SIZE, toBytesBE4]),
    List.take_left' hn]

theorem envelope_ct (salt nonce ct : Bytes) (hs : salt.length = 16)
    (hn : nonce.length = 12) :
    (toBytesBE4 ENCRYPTION_VERSION ++ salt ++ nonce ++ ct).drop
      (4 + SALT_SIZE + 12) = ct := by
  rw [List.drop_left' (show (toBytesBE4 ENCRYPTION_VERSION ++ salt ++
    nonce).length = 4 + SALT_SIZE + 12 by simp [hs, hn, SALT_SIZE, toBytesBE4])]

theorem concreteAead_length (k n p : Bytes) :
    (concreteAead.encrypt k n p).length = p.length + 16 := by
  simp [concreteAead, concreteTag]

theorem concreteAead_roundtrip (k n p : Bytes) :
    concreteAead.decrypt k n (concreteAead.encrypt k n p) = some p := by
  have hlen : (p ++ concreteTag k n p).length = p.length + 16 := by
    simp [concreteTag]
  simp only [concreteAead, hlen]
  rw [if_neg (by omega)]
  simp only [Nat.add_sub_cancel, List.take_left, List.drop_left, if_pos rfl]
  simp

theorem concreteAead_rejects_short (k n c : Bytes) (h : c.length < 16) :
    concreteAead.decrypt k n c = none := by
  simp [concreteAead, h]

theorem take_set_of_le {α : Type} (l : List α) (i n : Nat) (a : α)
    (h : n ≤ i) : (l.set i a).take n = l.take n := by
  induction l generalizing i n with
  | nil => simp
  | cons x xs ih =>
    cases i with
    | zero =>
      have hn : n = 0 := Nat.le_zero.mp h
      subst hn; simp
    | succ i' =>
      cases n with
      | zero => simp
      | succ n' =>
        simp only [List.set_cons_succ, List.take_succ_cons]
        rw [ih _ _ (Nat.le_of_succ_le_succ h)]

/-- C1.  Round-trip: for every plaintext byte string `p` (including the empty
string) and every password `w`, `decrypt_data (encrypt_data p w) w` returns
exactly `p`.  The AEAD round-trip contract of AES-GCM and the 16/12-byte
output sizes of `os.urandom` are hypotheses. -/
theorem decrypt_encrypt_roundtrip (S : KdfSuite) (A : AEAD)
    (hRT : ∀ k n p, A.decrypt k n (A.encrypt k n p) = some p)
    (salt nonce data : Bytes) (pw : String)
    (hs : salt.length = 16) (hn : nonce.length = 12) :
    decrypt_data S A (encrypt_data S A salt nonce data pw) pw =
      Except.ok data := by
  simp only [encrypt_data, decrypt_data]
  rw [envelope_take4, envelope_salt _ _ _ hs, envelope_nonce _ _ _ hs hn,
    envelope_ct _ _ _ hs hn, fromBytesBE_version, if_neg (by decide),
    if_pos rfl, hRT]

/-- Witness for C1 at a concrete plaintext, password, salt and nonce, with
the executable stand-in cipher discharging the AEAD hypothesis. -/
theorem decrypt_encrypt_roundtrip_witness :
    (List.replicate 16 7 : Bytes).length = 16 ∧
      (List.replicate 12 3 : Bytes).length = 12 ∧
      decrypt_data concreteSuite concreteAead
        (encrypt_data concreteSuite concreteAead (List.replicate 16 7)
          (List.replicate 12 3) [1, 2, 3] "pw") "pw" = Except.ok [1, 2, 3] :=
  ⟨by decide, by decide,
    decrypt_encrypt_roundtrip concreteSuite concreteAead concreteAead_roundtrip
      (List.replicate 16 7) (List.replicate 12 3) [1, 2, 3] "pw"
      (by decide) (by decide)⟩

/-- C3.  Version dispatch: for every input of at least 4 bytes whose first 4
bytes decode (big-endian) to a value outside `{1, 2}`, and for every password,
`decrypt_data` fails with the unsupported-version error carrying that value —
not a cryptographic/authentication error. -/
theorem decrypt_unsupported_version (S : KdfSuite) (A : AEAD) (input : Bytes)
    (pw : String) (h4 : 4 ≤ input.length)
    (h1 : fromBytesBE (input.take 4) ≠ 1)
    (h2 : fromBytesBE (input.take 4) ≠ 2) :
    decrypt_data S A input pw =
      Except.error (DecryptError.unsupportedVersion (fromBytesBE (input.take 4))) := by
  simp only [decrypt_data]
  rw [if_neg h1, if_neg h2]

/-- Witness for C3 on a 5-byte input whose version field decodes to `999`. -/
theorem decrypt_unsupported_version_witness :
    4 ≤ (toBytesBE4 999 ++ [17] : Bytes).length ∧
      fromBytesBE ((toBytesBE4 999 ++ [17] : Bytes).take 4) ≠ 1 ∧
      fromBytesBE ((toBytesBE4 999 ++ [17] : Bytes).take 4) ≠ 2 ∧
      decrypt_data concreteSuite concreteAead (toBytesBE4 999 ++ [17]) "x" =
        Except.error (DecryptError.unsupportedVersion
          (fromBytesBE ((toBytesBE4 999 ++ [17] : Bytes).take 4))) :=
  ⟨by decide, by decide, by decide,
    decrypt_unsupported_version concreteSuite concreteAead _ "x" (by decide)
      (by decide) (by decide)⟩

/-- C8.  Envelope layout and current-version rule: the output of
`encrypt_data` is exactly the concatenation, with no separators or length
prefixes, of the 4-byte big-endian version value `2`, the 16-byte salt, the
12-byte nonce, and the AEAD ciphertext-plus-16-byte-tag; new envelopes always
carry version `2`, never version `1`.  The ciphertext-length contract of
AES-GCM (`|ct| = |plaintext| + 16`) is a hypothesis. -/
theorem encrypt_envelope_layout (S : KdfSuite) (A : AEAD)
    (salt nonce data : Bytes) (pw : String)
    (hs : salt.length = 16) (hn : nonce.length = 12)
    (hlen : ∀ k n p, (A.encrypt k n p).length = p.length + 16) :
    encrypt_data S A salt nonce data pw =
        toBytesBE4 ENCRYPTION_VERSION ++ salt ++ nonce ++
          A.encrypt (S.argon2id (utf8Encode pw) salt) nonce data ∧
      ENCRYPTION_VERSION = 2 ∧
      fromBytesBE ((encrypt_data S A salt nonce data pw).take 4) = 2 ∧
      ((encrypt_data S A salt nonce data pw).drop 4).take SALT_SIZE = salt ∧
      ((encrypt_data S A salt nonce data pw).drop (4 + SALT_SIZE)).take 12 =
        nonce ∧
      (encrypt_data S A salt nonce data pw).drop (4 + SALT_SIZE + 12) =
        A.encrypt (S.argon2id (utf8Encode pw) salt) nonce data ∧
      (encrypt_data S A salt nonce data pw).length = data.length + 48 := by
  refine ⟨rfl, rfl, ?_, ?_, ?_, ?_, ?_⟩
  · simp only [encrypt_data]
    rw [envelope_take4, fromBytesBE_version]
  · simp only [encrypt_data]
    rw [envelope_salt _ _ _ hs]
  · simp only [encrypt_data]
    rw [envelope_nonce _ _ _ hs hn]
  · simp only [encrypt_data]
    rw [envelope_ct _ _ _ hs hn]
  · simp only [encrypt_data]
    simp [toBytesBE4, hs, hn, hlen]
    omega

/-- Witness for C8 on a concrete salt, nonce and plaintext, with the
stand-in cipher discharging the length hypothesis. -/
theorem encrypt_envelope_layout_witness :
    (List.replicate 16 1 : Bytes).length = 16 ∧
      (List.replicate 12 2 : Bytes).length = 12 ∧
      (encrypt_data concreteSuite concreteAead (List.replicate 16 1)
        (List.replicate 12 2) [9, 9] "p").length = [9, 9].length + 48 :=
  ⟨by decide, by decide,
    (encrypt_envelope_layout concreteSuite concreteAead (List.replicate 16 1)
      (List.replicate 12 2) [9, 9] "p" (by decide) (by decide)
      concreteAead_length).2.2.2.2.2.2⟩

/-- C9.  Semantic security as a two-run property: two calls of `encrypt_data`
on the same plaintext and password whose fresh random draws differ (the
event `os.urandom` guarantees with overwhelming probability, stated here as
the hypotheses `salt₁ ≠ salt₂`, `nonce₁ ≠ nonce₂`) produce different 16-byte
salts, different 12-byte nonces, and different full output byte strings. -/
theorem encrypt_two_runs_differ (S : KdfSuite) (A : AEAD)
    (salt₁ nonce₁ salt₂ nonce₂ data : Bytes) (pw : String)
    (hs₁ : salt₁.length = 16) (hs₂ : salt₂.length = 16)
    (hn₁ : nonce₁.length = 12) (hn₂ : nonce₂.length = 12)
    (hsalt : salt₁ ≠ salt₂) (hnonce : nonce₁ ≠ nonce₂) :
    salt₁ ≠ salt₂ ∧ nonce₁ ≠ nonce₂ ∧
      encrypt_data S A salt₁ nonce₁ data pw ≠
        encrypt_data S A salt₂ nonce₂ data pw := by
  refine ⟨hsalt, hnonce, fun heq => hsalt ?_⟩
  have h := congrArg (fun l => (l.drop 4).take SALT_SIZE) heq
  simp only [encrypt_data] at h
  rwa [envelope_salt _ _ _ hs₁, envelope_salt _ _ _ hs₂] at h

/-- Witness for C9 on two concrete random draws. -/
theorem encrypt_two_runs_differ_witness :
    (List.replicate 16 1 : Bytes) ≠ List.replicate 16 2 ∧
      (List.replicate 12 3 : Bytes) ≠ List.replicate 12 4 ∧
      encrypt_data concreteSuite concreteAead (List.replicate 16 1)
          (List.replicate 12 3) [5] "w" ≠
        encrypt_data concreteSuite concreteAead (List.replicate 16 2)
          (List.replicate 12 4) [5] "w" :=
  encrypt_two_runs_differ concreteSuite concreteAead _ _ _ _ [5] "w"
    (by decide) (by decide) (by decide) (by decide) (by decide) (by decide)

/-- Counterexample to C2 as stated.  The claim predicts a parsing-kind
failure (`MalformedEnvelopeError`) on truncated inputs, but `decrypt_data`
performs no length check at all: the empty input parses its zero available
version bytes as the value `0` and fails with the unsupported-version error,
and a 24-byte version-2 input proceeds with a truncated salt/nonce and fails
inside the crypto layer.  No malformed-envelope error exists in the code
(see `DecryptError`). -/
theorem truncated_input_not_parse_error :
    decrypt_data concreteSuite concreteAead [] "x" =
        Except.error (DecryptError.unsupportedVersion 0) ∧
      decrypt_data concreteSuite concreteAead
          (toBytesBE4 2 ++ List.replicate 20 0) "x" =
        Except.error DecryptError.invalidTag := by
  exact ⟨rfl, rfl⟩

/-- C2 as amended.  `decrypt_data` never performs an out-of-bounds access
(all parsing is total slicing), and on every input shorter than the 32-byte
header (version, salt and nonce all present) it fails: with the
unsupported-version error when the available version bytes decode outside
`{1, 2}` (the empty input decodes to `0`), and otherwise with an error from
the crypto layer, which rejects a ciphertext shorter than the 16-byte tag —
never with a dedicated parsing error, which the code does not have. -/
theorem decrypt_truncated_fails (S : KdfSuite) (A : AEAD) (input : Bytes)
    (pw : String)
    (hshort : ∀ k n c, c.length < 16 → A.decrypt k n c = none)
    (hlen : input.length < 32) :
    decrypt_data S A input pw =
      Except.error
        (if fromBytesBE (input.take 4) = 1 ∨ fromBytesBE (input.take 4) = 2
          then DecryptError.invalidTag
          else DecryptError.unsupportedVersion (fromBytesBE (input.take 4))) := by
  have hct : input.drop (4 + SALT_SIZE + 12) = ([] : Bytes) :=
    List.drop_eq_nil_of_le (by simp only [SALT_SIZE]; omega)
  simp only [decrypt_data]
  rw [hct, hshort _ _ [] (by decide), hshort _ _ [] (by decide)]
  by_cases h1 : fromBytesBE (input.take 4) = 1
  · rw [if_pos h1, if_pos (Or.inl h1)]
  · rw [if_neg h1]
    by_cases h2 : fromBytesBE (input.take 4) = 2
    · rw [if_pos h2, if_pos (Or.inr h2)]
    · rw [if_neg h2, if_neg (by tauto)]

/-- Witness for the amended C2 on a concrete 10-byte truncated input. -/
theorem decrypt_truncated_fails_witness :
    (List.replicate 10 0 : Bytes).length < 32 ∧
      decrypt_data concreteSuite concreteAead (List.replicate 10 0) "x" =
        Except.error
          (if fromBytesBE ((List.replicate 10 0 : Bytes).take 4) = 1 ∨
              fromBytesBE ((List.replicate 10 0 : Bytes).take 4) = 2
            then DecryptError.invalidTag
            else DecryptError.unsupportedVersion
              (fromBytesBE ((List.replicate 10 0 : Bytes).take 4))) :=
  ⟨by decide,
    decrypt_truncated_fails concreteSuite concreteAead (List.replicate 10 0)
      "x" concreteAead_rejects_short (by decide)⟩

/-- C4.  Authentication is all-or-nothing: flipping any single bit (byte
index `i ≥ 4`, i.e. anywhere in the salt, nonce or ciphertext/tag region,
version bytes untouched) of an envelope produced by `encrypt_data` makes
`decrypt_data` with the original password fail with the tag-verification
error, returning no partial or wrong plaintext.  That AES-GCM rejects the
re-derived key/nonce/ciphertext triple of the tampered envelope — its
authentication guarantee — is the hypothesis `hrej`; the code then turns that
rejection into a total failure. -/
theorem decrypt_rejects_bitflip (S : KdfSuite) (A : AEAD)
    (salt nonce data : Bytes) (pw : String)
    (hs : salt.length = 16) (hn : nonce.length = 12)
    (i j : Nat) (hi : 4 ≤ i)
    (hiu : i < (encrypt_data S A salt nonce data pw).length) (hj : j < 8)
    (hrej :
      A.decrypt
        (S.argon2id (utf8Encode pw)
          (((flipBit (encrypt_data S A salt nonce data pw) i j).drop 4).take
            SALT_SIZE))
        (((flipBit (encrypt_data S A salt nonce data pw) i j).drop
          (4 + SALT_SIZE)).take 12)
        ((flipBit (encrypt_data S A salt nonce data pw) i j).drop
          (4 + SALT_SIZE + 12)) = none) :
    decrypt_data S A (flipBit (encrypt_data S A salt nonce data pw) i j) pw =
      Except.error DecryptError.invalidTag := by
  have hv : (flipBit (encrypt_data S A salt nonce data pw) i j).take 4 =
      toBytesBE4 ENCRYPTION_VERSION := by
    unfold flipBit
    rw [take_set_of_le _ _ _ _ hi]
    simp only [encrypt_data]
    exact envelope_take4 _ _ _
  simp only [decrypt_data]
  rw [hv, fromBytesBE_version, if_neg (by decide), if_pos rfl, hrej]

/-- Witness for C4: flipping bit 0 of byte 4 (the first salt byte) of a
concrete envelope, with the stand-in cipher rejecting the tampered triple. -/
theorem decrypt_rejects_bitflip_witness :
    (4 : Nat) ≤ 4 ∧ (0 : Nat) < 8 ∧
      decrypt_data concreteSuite concreteAead
          (flipBit (encrypt_data concreteSuite concreteAead
            (List.replicate 16 0) (List.replicate 12 0) [] "") 4 0) "" =
        Except.error DecryptError.invalidTag :=
  ⟨by decide, by decide,
    decrypt_rejects_bitflip concreteSuite concreteAead (List.replicate 16 0)
      (List.replicate 12 0) [] "" (by decide) (by decide) 4 0 (by decide)
      (by decide) (by decide) (by decide)⟩

theorem isPrefixOf_eq_true_iff (l₁ l₂ : List String) :
    l₁.isPrefixOf l₂ = true ↔ l₁ <+: l₂ := List.isPrefixOf_iff_prefix

theorem isSuffixOf_eq_true_iff (l₁ l₂ : List Char) :
    l₁.isSuffixOf l₂ = true ↔ l₁ <:+ l₂ := List.isSuffixOf_iff_suffix

/-- C5.  Path sandbox: `_validate_backup_path` resolves both the candidate
and the allowed base to canonical absolute form and then (in this order)
fails with the path-traversal error when the resolved candidate is not below
the resolved base, fails with the invalid-filename error when the final
component has a character outside `[A-Za-z0-9._-]` or does not end in
`.enc`, and otherwise returns the canonical absolute path.  The function is
pure: it creates and opens nothing. -/
theorem validate_backup_path_spec (cwd : List String)
    (backup_file allowed_base : PyPath) :
    (¬ resolvePath cwd allowed_base <+: resolvePath cwd backup_file →
      _validate_backup_path cwd backup_file allowed_base =
        Except.error PathError.pathTraversal) ∧
    (resolvePath cwd allowed_base <+: resolvePath cwd backup_file →
      ((∃ c ∈ (pathName (resolvePath cwd backup_file)).data,
          safeChar c = false) ∨
        ¬ ".enc".data <:+ (pathName (resolvePath cwd backup_file)).data) →
      _validate_backup_path cwd backup_file allowed_base =
        Except.error PathError.invalidFilename) ∧
    (resolvePath cwd allowed_base <+: resolvePath cwd backup_file →
      (∀ c ∈ (pathName (resolvePath cwd backup_file)).data,
        safeChar c = true) →
      ".enc".data <:+ (pathName (resolvePath cwd backup_file)).data →
      _validate_backup_path cwd backup_file allowed_base =
        Except.ok (resolvePath cwd backup_file)) := by
  refine ⟨?_, ?_, ?_⟩
  · intro h
    simp only [_validate_backup_path]
    rw [if_neg (fun hc => h ((isPrefixOf_eq_true_iff _ _).mp hc))]
  · intro hpre hbad
    simp only [_validate_backup_path]
    rw [if_pos ((isPrefixOf_eq_true_iff _ _).mpr hpre)]
    rcases hbad with ⟨c, hc, hcf⟩ | hnoenc
    · have hall : (pathName (resolvePath cwd backup_file)).data.all safeChar
          = false := by
        rw [← Bool.not_eq_true, List.all_eq_true]
        push_neg
        exact ⟨c, hc, by simp [hcf]⟩
      rw [if_neg (by simp [filenameOk, hall])]
    · by_cases hfn : filenameOk (pathName (resolvePath cwd backup_file)) = true
      · rw [if_pos hfn,
          if_neg (show ¬ endsWithEnc (pathName (resolvePath cwd backup_file))
            = true from fun hh =>
              hnoenc ((isSuffixOf_eq_true_iff _ _).mp hh))]
      · rw [if_neg hfn]
  · intro hpre hsafe henc
    simp only [_validate_backup_path]
    obtain ⟨t, ht⟩ := henc
    have hfn : filenameOk (pathName (resolvePath cwd backup_file)) = true := by
      have hne : (pathName (resolvePath cwd backup_file)).data ≠ [] := by
        rw [← ht]; simp
      have hall := List.all_eq_true.mpr hsafe
      simp [filenameOk, hall, hne]
    rw [if_pos ((isPrefixOf_eq_true_iff _ _).mpr hpre), if_pos hfn,
      if_pos (show endsWithEnc (pathName (resolvePath cwd backup_file)) = true
        from (isSuffixOf_eq_true_iff _ _).mpr ⟨t, ht⟩)]

/-- Witness for C5: a well-formed backup path below the allowed base. -/
theorem validate_backup_path_spec_witness :
    (resolvePath [] ⟨true, ["app", "backups"]⟩ <+:
      resolvePath [] ⟨true, ["app", "backups", "b1.enc"]⟩) ∧
    _validate_backup_path [] ⟨true, ["app", "backups", "b1.enc"]⟩
        ⟨true, ["app", "backups"]⟩ =
      Except.ok (resolvePath [] ⟨true, ["app", "backups", "b1.enc"]⟩) :=
  ⟨by decide,
    (validate_backup_path_spec [] ⟨true, ["app", "backups", "b1.enc"]⟩
      ⟨true, ["app", "backups"]⟩).2.2 (by decide) (by decide) (by decide)⟩

theorem redactAux_length (cmd : List String) :
    ∀ s : Bool, (redactAux s cmd).length = cmd.length := by
  induction cmd with
  | nil => intro s; cases s <;> rfl
  | cons a rest ih =>
    intro s
    cases s with
    | true => simp [redactAux, ih]
    | false =>
      simp only [redactAux]
      split_ifs <;> simp [ih]

theorem redactAux_follower (cmd : List String) :
    ∀ (s : Bool) (i : Nat), i + 1 < cmd.length →
      (cmd.getD i "" = "--password" ∨ cmd.getD i "" = "--raw" ∨
        cmd.getD i "" = "unlock") →
      (redactAux s cmd).getD i "" = cmd.getD i "" →
      (redactAux s cmd).getD (i + 1) "" = "***REDACTED***" := by
  induction cmd with
  | nil => intro s i h; simp at h
  | cons a rest ih =>
    intro s i hlen hsens hkept
    have hlen' : ∀ i' : Nat, i = i' + 1 → i' + 1 < rest.length := by
      intro i' hi
      simp only [List.length_cons] at hlen
      omega
    cases s with
    | true =>
      simp only [redactAux] at hkept ⊢
      cases i with
      | zero =>
        simp only [List.getD_cons_zero] at hkept hsens
        rcases hsens with h | h | h <;>
          (rw [h] at hkept; exact absurd hkept (by decide))
      | succ i' =>
        simp only [List.getD_cons_succ] at hkept hsens ⊢
        exact ih false i' (hlen' i' rfl) hsens hkept
    | false =>
      by_cases hflag : a = "--password" ∨ a = "--raw"
      · have hred : redactAux false (a :: rest) = a :: redactAux true rest := by
          simp only [redactAux]; rw [if_pos hflag]
        rw [hred] at hkept ⊢
        cases i with
        | zero =>
          simp only [List.getD_cons_succ]
          obtain ⟨b, rest', rfl⟩ : ∃ b rest', rest = b :: rest' := by
            cases rest with
            | nil => simp at hlen
            | cons b r => exact ⟨b, r, rfl⟩
          simp [redactAux]
        | succ i' =>
          simp only [List.getD_cons_succ] at hkept hsens ⊢
          exact ih true i' (hlen' i' rfl) hsens hkept
      · by_cases hunlock : a = "unlock" ∧ rest ≠ []
        · have hred : redactAux false (a :: rest) = a :: redactAux true rest := by
            simp only [redactAux]; rw [if_neg hflag, if_pos hunlock]
          rw [hred] at hkept ⊢
          cases i with
          | zero =>
            simp only [List.getD_cons_succ]
            obtain ⟨b, rest', rfl⟩ : ∃ b rest', rest = b :: rest' := by
              cases rest with
              | nil => simp at hlen
              | cons b r => exact ⟨b, r, rfl⟩
            simp [redactAux]
          | succ i' =>
            simp only [List.getD_cons_succ] at hkept hsens ⊢
            exact ih true i' (hlen' i' rfl) hsens hkept
        · have hred : redactAux false (a :: rest) = a :: redactAux false rest := by
            simp only [redactAux]; rw [if_neg hflag, if_neg hunlock]
          rw [hred] at hkept ⊢
          cases i with
          | zero =>
            simp only [List.getD_cons_zero] at hsens
            have hrest : rest ≠ [] := by
              cases rest with
              | nil => simp at hlen
              | cons b r => simp
            rcases hsens with h | h | h
            · exact absurd (Or.inl h) hflag
            · exact absurd (Or.inr h) hflag
            · exact absurd ⟨h, hrest⟩ hunlock
          | succ i' =>
            simp only [List.getD_cons_succ] at hkept hsens ⊢
            exact ih false i' (hlen' i' rfl) hsens hkept

/-- Counterexample to C6 as stated.  The claim has the follower of every
occurrence of `--password`/`--raw` replaced, but the scan carries a skip
state: in `["--password", "--raw", "x"]` the token `--raw` sits in the
redacted position of the `--password` match, so it is itself replaced and
does not trigger redaction of `"x"`, which survives verbatim. -/
theorem redact_skipped_flag_follower :
    _redact_sensitive_args ["--password", "--raw", "x"] =
      ["--password", "***REDACTED***", "x"] := rfl

/-- C6 as amended.  `_redact_sensitive_args` preserves the argument count
and replaces the argument immediately following any occurrence of
`--password`, `--raw` or `unlock` that is itself emitted unredacted (an
occurrence sitting in the redacted slot of the previous match is replaced
by the marker and does not redact its own follower; a trailing `unlock`
with no follower triggers nothing); in particular the redacted form of
`["unlock", "secret123", "--raw"]` never contains `"secret123"`. -/
theorem redact_sensitive_args_spec (cmd : List String) :
    (_redact_sensitive_args cmd).length = cmd.length ∧
    (∀ i : Nat, i + 1 < cmd.length →
      (cmd.getD i "" = "--password" ∨ cmd.getD i "" = "--raw" ∨
        cmd.getD i "" = "unlock") →
      (_redact_sensitive_args cmd).getD i "" = cmd.getD i "" →
      (_redact_sensitive_args cmd).getD (i + 1) "" = "***REDACTED***") ∧
    "secret123" ∉ _redact_sensitive_args ["unlock", "secret123", "--raw"] :=
  ⟨redactAux_length cmd false,
    fun i => redactAux_follower cmd false i,
    by decide⟩

/-- Witness for C6 on the spec's own example list: position 0 holds
`unlock`, it is emitted unredacted, so position 1 (`secret123`) is
replaced by the marker. -/
theorem redact_sensitive_args_spec_witness :
    (0 : Nat) + 1 < (["unlock", "secret123", "--raw"] : List String).length ∧
      (_redact_sensitive_args ["unlock", "secret123", "--raw"]).getD (0 + 1)
        "" = "***REDACTED***" :=
  ⟨by decide,
    (redact_sensitive_args_spec ["unlock", "secret123", "--raw"]).2.1 0
      (by decide) (Or.inr (Or.inr rfl)) rfl⟩

theorem retryGo_allFail {α : Type} (op : Nat → RunResult α) (e : Nat → Nat)
    (hfail : ∀ i, op i = RunResult.bwError (e i)) (base maxd : ℚ)
    (maxA : Nat) :
    ∀ (remaining : Nat) (attempt : Nat) (ds : List ℚ) (calls : Nat)
      (last : Option Nat), remaining + attempt = maxA → 1 ≤ remaining →
      retryGo op base maxd maxA remaining attempt ds calls last =
        ⟨RunResult.bwError (e (maxA - 1)),
          ds ++ (List.range (remaining - 1)).map
            (fun k => min (base * 2 ^ (attempt + k)) maxd),
          calls + remaining⟩ := by
  intro remaining
  induction remaining with
  | zero => intro attempt ds calls last _ h; exact absurd h (by omega)
  | succ r ih =>
    intro attempt ds calls last hsum hr
    simp only [retryGo]
    simp only [hfail attempt]
    by_cases hlast : attempt = maxA - 1
    · have hr0 : r = 0 := by omega
      subst hr0
      rw [if_pos hlast]
      simp [hlast]
    · have hr1 : 1 ≤ r := by omega
      rw [if_neg hlast,
        ih (attempt + 1) (ds ++ [min (base * 2 ^ attempt) maxd]) (calls + 1)
          (some (e attempt)) (by omega) hr1]
      obtain ⟨r', rfl⟩ : ∃ r', r = r' + 1 := ⟨r - 1, by omega⟩
      simp only [RetryTrace.mk.injEq]
      refine ⟨trivial, ?_, by omega⟩
      rw [List.append_assoc, List.singleton_append,
        Nat.add_sub_cancel, Nat.succ_sub_one, List.range_succ_eq_map,
        List.map_cons, List.map_map]
      have hfun : ((fun k => min (base * 2 ^ (attempt + k)) maxd) ∘ Nat.succ)
          = fun k => min (base * 2 ^ (attempt + 1 + k)) maxd := by
        funext k
        have h : attempt + Nat.succ k = attempt + 1 + k := by omega
        simp only [Function.comp_apply, h]
      rw [hfun]
      simp

/-- C7.  Retry policy: `retry_with_backoff` retries only the retryable
failure kind (`BitwardenError`); the delay slept after failed attempt `i`
(0-indexed) is `min (base_delay * 2 ^ i) max_delay` (so `2, 4, 8, …` capped
at `30` with the source defaults `base_delay = 2`, `max_delay = 30`); on a
permanently failing operation it invokes the operation exactly
`max_attempts` times, sleeps after every attempt but the last, and re-raises
the last failure unchanged.  A non-`BitwardenError` failure and a success
both end the loop after a single invocation with no sleep. -/
theorem retry_with_backoff_policy (α : Type) (maxA : Nat) (base maxd : ℚ)
    (h1 : 1 ≤ maxA) :
    (∀ (op : Nat → RunResult α) (e : Nat → Nat),
      (∀ i, op i = RunResult.bwError (e i)) →
      retry_with_backoff maxA base maxd op =
        ⟨RunResult.bwError (e (maxA - 1)),
          (List.range (maxA - 1)).map (fun k => min (base * 2 ^ k) maxd),
          maxA⟩) ∧
    (∀ (op : Nat → RunResult α) (x : Nat), op 0 = RunResult.otherError x →
      retry_with_backoff maxA base maxd op =
        ⟨RunResult.otherError x, [], 1⟩) ∧
    (∀ (op : Nat → RunResult α) (a : α), op 0 = RunResult.ok a →
      retry_with_backoff maxA base maxd op = ⟨RunResult.ok a, [], 1⟩) := by
  obtain ⟨m, rfl⟩ : ∃ m, maxA = m + 1 := ⟨maxA - 1, by omega⟩
  refine ⟨?_, ?_, ?_⟩
  · intro op e hfail
    rw [retry_with_backoff,
      retryGo_allFail op e hfail base maxd (m + 1) (m + 1) 0 [] 0 none
        (by omega) (by omega)]
    simp
  · intro op x hop
    rw [retry_with_backoff]
    simp only [retryGo]
    rw [hop]
  · intro op a hop
    rw [retry_with_backoff]
    simp only [retryGo]
    rw [hop]

/-- Witness for C7: the defaults `max_attempts = 3`, `base_delay = 2`,
`max_delay = 30` on an operation that fails with `BitwardenError` tag `i`
at every attempt `i`: three invocations, sleeps `min (2 * 2 ^ k) 30` for
`k = 0, 1`, and the final outcome is the last failure. -/
theorem retry_with_backoff_policy_witness :
    (1 : Nat) ≤ 3 ∧
      retry_with_backoff 3 (2 : ℚ) 30 (fun i => RunResult.bwError (α := Nat) i)
        = ⟨RunResult.bwError (3 - 1),
            (List.range (3 - 1)).map (fun k => min ((2 : ℚ) * 2 ^ k) 30), 3⟩ :=
  ⟨by decide,
    (retry_with_backoff_policy Nat 3 2 30 (by decide)).1
      (fun i => RunResult.bwError i) (fun i => i) (fun _ => rfl)⟩

/-- C10.  Logout atomicity: `logout` clears the stored session token only
after the external logout command succeeds; if the invocation raises, the
exception propagates and the whole client state — in particular the
`session` field — retains its previous value. -/
theorem logout_atomicity (st : BitwardenClientState) :
    (∀ e, logout st (RunOutcome.failure e) = (some e, st)) ∧
    (∀ e, (logout st (RunOutcome.failure e)).2.session = st.session) ∧
    (∀ out, logout st (RunOutcome.success out) =
      (none, { st with session := none })) :=
  ⟨fun _ => rfl, fun _ => rfl, fun _ => rfl⟩

end Backvault
